import Mathlib

/-!
Verification development for the photo-merger repository.

The definitions below are a shallow embedding of the core pipeline of
`src/photo_merger/photo_merger.py` and `src/photo_merger/utils.py`:

* Python strings are Lean `String`s; the handful of Python string methods the
  source uses (`str.lower`, single-character `str.replace`, `Path.suffix`,
  `str.rsplit(".", 1)`, zero-padded formatting) are re-implemented below on
  `List Char`, following CPython's documented semantics.
* The filesystem is a tree (`FSTree`) of named files and directories; a file
  carries an abstract description of what reading its EXIF metadata would
  produce (`MetadataResult`), so that the metadata-reading code — which in
  Python does I/O and may raise — becomes a total function on that description.
* Python dicts (which iterate in insertion order) are association lists; a
  raised exception that escapes a function is an `Option`/`Except` failure
  value.
-/

/-- Zero-padded decimal rendering of a natural number to width 3, the Python
format specifier used at photo_merger.py:180 (the 03 in the f-string). -/
def pad3 (n : Nat) : String :=
  let s := toString n
  if s.length < 3 then String.mk (List.replicate (3 - s.length) '0') ++ s else s

/-- Python `str.lower` restricted to ASCII, applied character by character
(the repository only ever lowercases extensions and directory names). -/
def strLower (s : String) : String :=
  String.mk (s.data.map Char.toLower)

/-- Python `str.replace(c, r)` for single-character pattern and replacement:
every occurrence of `c` is replaced by `r`. -/
def replaceChar (s : String) (c r : Char) : String :=
  String.mk (s.data.map (fun x => if x = c then r else x))

/-- CPython `pathlib.PurePath.suffix` of a file or directory name: the part
from the last dot on, but empty when the name has no dot, when the only dot
is the leading character (hidden files), or when the last dot is the final
character. -/
def pySuffix (name : String) : String :=
  let cs := name.data
  match cs.reverse.findIdx? (fun c => c = '.') with
  | none => ""
  | some r =>
    let i := cs.length - 1 - r
    if 0 < i ∧ i < cs.length - 1 then String.mk (cs.drop i) else ""

/-- Python `s.rsplit(".", 1)` when it yields two pieces: split at the last
dot; `none` when the string contains no dot (in Python the two-name unpacking
at photo_merger.py:179 then raises `ValueError`). -/
def rsplitDot (s : String) : Option (String × String) :=
  let cs := s.data
  match cs.reverse.findIdx? (fun c => c = '.') with
  | none => none
  | some r =>
    let i := cs.length - 1 - r
    some (String.mk (cs.take i), String.mk (cs.drop (i + 1)))

/-- Whether a string contains a dot, i.e. whether `rsplitDot` succeeds. -/
def hasDot (s : String) : Bool :=
  s.data.contains '.'

/-- Lookup in an association list with decidable keys, Python `dict.get`
returning `None` when absent. -/
def getK {κ ν : Type} [DecidableEq κ] : List (κ × ν) → κ → Option ν
  | [], _ => none
  | (k', v') :: rest, k => if k' = k then some v' else getK rest k

/-- Store a key/value pair in an association list, Python `d[k] = v`:
overwrite in place when the key is present, append otherwise. -/
def setK {κ ν : Type} [DecidableEq κ] : List (κ × ν) → κ → ν → List (κ × ν)
  | [], k, v => [(k, v)]
  | (k', v') :: rest, k, v =>
    if k' = k then (k, v) :: rest else (k', v') :: setK rest k v

/-- Python `file_name_counts.get(name, 0)` at photo_merger.py:176. -/
def lookupCount (counts : List (String × Nat)) (name : String) : Nat :=
  (getK counts name).getD 0

/-- The loop body state of `PhotoMerger._resolve_duplicate_output_file_paths`
(photo_merger.py:172-185), processing the remaining entries given the
occurrence counts accumulated so far.  Returns `none` when the Python code
would raise `ValueError` (a repeated proposed name with no dot fails the
two-name unpacking of `rsplit`). -/
def resolveDupAux {α : Type} :
    List (α × String) → List (String × Nat) → Option (List (α × String))
  | [], _ => some []
  | (key, newFileName) :: rest, counts =>
    let count := lookupCount counts newFileName
    let renamed : Option String :=
      if count > 0 then
        match rsplitDot newFileName with
        | none => none
        | some (stem, ext) => some (stem ++ "_" ++ pad3 count ++ "." ++ ext)
      else some newFileName
    match renamed with
    | none => none
    | some outName =>
      match resolveDupAux rest (setK counts newFileName (count + 1)) with
      | none => none
      | some rest' => some ((key, outName) :: rest')

/-- `PhotoMerger._resolve_duplicate_output_file_paths`
(photo_merger.py:159-185): the rename mapping is an association list in
insertion order (a Python dict); counts start empty. -/
def resolve_duplicate_output_file_paths {α : Type}
    (image_rename_mapping : List (α × String)) : Option (List (α × String)) :=
  resolveDupAux image_rename_mapping []

/-- Number of occurrences of a string in a list, used to state what the
collision resolver computes. -/
def countOcc (l : List String) (s : String) : Nat :=
  (l.filter (fun x => x = s)).length

/-- Modelled from the spec: the rewrite rule of section 4.3 — the first
occurrence of a proposed name is kept, the Nth repeated occurrence (N being
the number of earlier occurrences) becomes stem, underscore, the zero-padded
count, dot, extension. -/
def specRewrite (priorCount : Nat) (name : String) : String :=
  if priorCount = 0 then name
  else
    match rsplitDot name with
    | some (stem, ext) => stem ++ "_" ++ pad3 priorCount ++ "." ++ ext
    | none => name

/-- Modelled from the spec: resolve a mapping by rewriting each entry
according to how many earlier entries proposed the same name (the `prior`
accumulator lists the proposed names already processed, oldest first). -/
def specResolve {α : Type} (prior : List String) :
    List (α × String) → List (α × String)
  | [] => []
  | (key, name) :: rest =>
    (key, specRewrite (countOcc prior name) name) :: specResolve (prior ++ [name]) rest

theorem getK_setK_self {κ ν : Type} [DecidableEq κ] (d : List (κ × ν)) (k : κ) (v : ν) :
    getK (setK d k v) k = some v := by
  induction d with
  | nil => simp [setK, getK]
  | cons hd rest ih =>
    obtain ⟨k', v'⟩ := hd
    by_cases h : k' = k <;> simp [setK, getK, h, ih]

theorem getK_setK_ne {κ ν : Type} [DecidableEq κ] (d : List (κ × ν)) (k q : κ) (v : ν)
    (h : q ≠ k) : getK (setK d k v) q = getK d q := by
  have hkq : k ≠ q := fun hh => h hh.symm
  induction d with
  | nil => simp [setK, getK, hkq]
  | cons hd rest ih =>
    obtain ⟨k', v'⟩ := hd
    by_cases hk : k' = k
    · subst hk
      simp [setK, getK, hkq]
    · simp only [setK, if_neg hk, getK]
      by_cases hq : k' = q <;> simp [hq, ih]

theorem lookupCount_setK_self (counts : List (String × Nat)) (n : String) (v : Nat) :
    lookupCount (setK counts n v) n = v := by
  simp [lookupCount, getK_setK_self]

theorem lookupCount_setK_ne (counts : List (String × Nat)) (n s : String) (v : Nat)
    (h : s ≠ n) : lookupCount (setK counts n v) s = lookupCount counts s := by
  simp [lookupCount, getK_setK_ne counts n s v h]

theorem countOcc_append_singleton (p : List String) (n s : String) :
    countOcc (p ++ [n]) s = countOcc p s + (if n = s then 1 else 0) := by
  simp only [countOcc, List.filter_append, List.length_append]
  by_cases h : n = s <;> simp [h]

theorem rsplitDot_isSome_of_hasDot (s : String) (h : hasDot s = true) :
    ∃ stem ext, rsplitDot s = some (stem, ext) := by
  cases hf : s.data.reverse.findIdx? (fun c => c = '.') with
  | none =>
    rw [List.findIdx?_eq_none_iff] at hf
    have hm : ('.' : Char) ∈ s.data.reverse := by
      rw [List.mem_reverse]
      simpa [hasDot] using h
    have := hf '.' hm
    simp at this
  | some r =>
    exact ⟨String.mk (s.data.take (s.data.length - 1 - r)),
      String.mk (s.data.drop ((s.data.length - 1 - r) + 1)),
      by simp [rsplitDot, hf]⟩

theorem resolveDupAux_eq_spec {α : Type} (m : List (α × String)) :
    ∀ (prior : List String) (counts : List (String × Nat)),
      (∀ p ∈ m, hasDot p.2 = true) →
      (∀ s, lookupCount counts s = countOcc prior s) →
      resolveDupAux m counts = some (specResolve prior m) := by
  induction m with
  | nil => intro prior counts _ _; simp [resolveDupAux, specResolve]
  | cons hd rest ih =>
    intro prior counts hdot hc
    obtain ⟨key, n⟩ := hd
    have hdn : hasDot n = true := hdot (key, n) (List.mem_cons_self _ _)
    have hrest : ∀ p ∈ rest, hasDot p.2 = true :=
      fun p hp => hdot p (List.mem_cons_of_mem _ hp)
    have hc' : ∀ s, lookupCount (setK counts n (lookupCount counts n + 1)) s =
        countOcc (prior ++ [n]) s := by
      intro s
      rw [countOcc_append_singleton]
      by_cases hs : s = n
      · subst hs
        rw [lookupCount_setK_self, hc s]
        simp
      · rw [lookupCount_setK_ne counts n s _ hs, hc s]
        have hns : n ≠ s := fun hh => hs hh.symm
        simp [hns]
    have hihn := ih (prior ++ [n]) (setK counts n (lookupCount counts n + 1)) hrest hc'
    by_cases h0 : lookupCount counts n = 0
    · have hco : countOcc prior n = 0 := by rw [← hc n]; exact h0
      rw [h0] at hihn
      simp only [Nat.zero_add] at hihn
      simp [resolveDupAux, h0, hihn, specResolve, specRewrite, hco]
    · obtain ⟨stem, ext, hsp⟩ := rsplitDot_isSome_of_hasDot n hdn
      have hpos : lookupCount counts n > 0 := Nat.pos_of_ne_zero h0
      have hco : countOcc prior n = lookupCount counts n := (hc n).symm
      simp [resolveDupAux, hpos, hsp, hihn, specResolve, specRewrite, hco, h0]

/-- C1: the collision resolver is claimed to return, for every input rename
mapping, a mapping with the same keys in the same order and pairwise-distinct
values.  The code contradicts its own docstring ("Updated mapping with all
filenames unique"): on the proposed names a.jpg, a_001.jpg, a.jpg — all
distinct files — the third entry is rewritten to a_001.jpg, which collides
with the untouched second entry, so the returned values are not pairwise
distinct. -/
theorem C1_resolver_collides_at_failing_input :
    resolve_duplicate_output_file_paths
        [(0, "a.jpg"), (1, "a_001.jpg"), (2, "a.jpg")] =
      some [(0, "a.jpg"), (1, "a_001.jpg"), (2, "a_001.jpg")] ∧
    ¬ List.Pairwise (fun a b => a ≠ b)
        ((([(0, "a.jpg"), (1, "a_001.jpg"), (2, "a_001.jpg")] :
          List (Nat × String))).map Prod.snd) := by
  constructor
  · decide
  · decide

/-- C2: the collision resolver processes entries in mapping order, keeps the
first occurrence of each proposed name, and rewrites the Nth repeated
occurrence by appending the zero-padded prior-occurrence count before the
extension (split at the last dot); in particular the ordered proposed names
a.jpg, a.jpg, b.jpg, a.jpg resolve to a.jpg, a_001.jpg, b.jpg, a_002.jpg.
Stated for mappings whose proposed names all contain a dot (otherwise the
source raises ValueError on the rsplit unpacking). -/
theorem C2_resolver_order_and_rewrite {α : Type} (m : List (α × String))
    (hdot : ∀ p ∈ m, hasDot p.2 = true) :
    resolve_duplicate_output_file_paths m = some (specResolve [] m) ∧
    resolve_duplicate_output_file_paths
        [(0, "a.jpg"), (1, "a.jpg"), (2, "b.jpg"), (3, "a.jpg")] =
      some [(0, "a.jpg"), (1, "a_001.jpg"), (2, "b.jpg"), (3, "a_002.jpg")] := by
  constructor
  · exact resolveDupAux_eq_spec m [] [] hdot (fun s => rfl)
  · decide

/-- Witness for C2 at a concrete mapping with a repeated dotted name. -/
theorem C2_resolver_order_and_rewrite_witness :
    resolve_duplicate_output_file_paths [(0, "x y.png"), (1, "x y.png")] =
      some [(0, "x y.png"), (1, "x y_001.png")] := by
  have h := (C2_resolver_order_and_rewrite
    [(0, "x y.png"), (1, "x y.png")] (by decide)).1
  rw [h]
  decide

/-- What reading a file's EXIF metadata would produce: `err` when
`Image.open`/`getexif` raises (corrupt file, unsupported structure, I/O
error, or the path being a directory), otherwise the readable tag dictionary
built at photo_merger.py:75-78 (tag name to value, insertion order). -/
inductive MetadataResult where
  | err
  | ok (tags : List (String × String))

/-- Python truthiness of an optional string: `None` and the empty string are
falsy (the `if not datetime_str` checks at photo_merger.py:84,130,135). -/
def pyTruthy (o : Option String) : Bool :=
  match o with
  | none => false
  | some s => s ≠ ""

/-- Python `a or b` on two `str | None` values (photo_merger.py:80-82):
yields `a` when `a` is truthy, otherwise `b`. -/
def pyOr (a b : Option String) : Option String :=
  if pyTruthy a then a else b

/-- `PhotoMerger._extract_metadata` (photo_merger.py:58-92) on the abstract
description of the file's metadata: any raised exception is caught and
becomes `none`; an empty EXIF dictionary gives `none`; otherwise the
`DateTimeOriginal` value is preferred over `DateTime` via Python `or`, a
falsy result gives `none`, and a truthy value has its colons and spaces
replaced by underscores. -/
def extract_metadata (m : MetadataResult) : Option String :=
  match m with
  | .err => none
  | .ok tags =>
    if tags.isEmpty then none
    else
      match pyOr (getK tags "DateTimeOriginal") (getK tags "DateTime") with
      | none => none
      | some s =>
        if s = "" then none
        else some (replaceChar (replaceChar s ':' '_') ' ' '_')

/-- The fixed-shape checks of the regex at photo_merger.py:104 — four digits,
hyphen, two digits, hyphen, two digits, underscore, two digits, hyphen, two
digits, hyphen, two digits (the pattern has no variable-length parts). -/
def dtPattern : List (Char → Bool) :=
  [Char.isDigit, Char.isDigit, Char.isDigit, Char.isDigit, fun c => c = '-',
   Char.isDigit, Char.isDigit, fun c => c = '-', Char.isDigit, Char.isDigit,
   fun c => c = '_', Char.isDigit, Char.isDigit, fun c => c = '-',
   Char.isDigit, Char.isDigit, fun c => c = '-', Char.isDigit, Char.isDigit]

/-- Match a list of single-character checks at the start of the input,
returning the matched characters. -/
def matchAt : List (Char → Bool) → List Char → Option (List Char)
  | [], _ => some []
  | _ :: _, [] => none
  | p :: ps, c :: cs => if p c then (matchAt ps cs).map (fun m => c :: m) else none

/-- `re.search` for the fixed-length pattern: try to match at each position,
left to right, returning the first (leftmost) match. -/
def searchDT : List Char → Option (List Char)
  | [] => none
  | c :: cs =>
    match matchAt dtPattern (c :: cs) with
    | some m => some m
    | none => searchDT cs

/-- `PhotoMerger._extract_datetime_from_file_name` (photo_merger.py:94-111):
search the filename for the datetime pattern; on a match, replace the
hyphens of the matched group by underscores. -/
def extract_datetime_from_file_name (name : String) : Option String :=
  match searchDT name.data with
  | none => none
  | some m => some (replaceChar (String.mk m) '-' '_')

/-- The timestamp selection of `PhotoMerger._generate_new_file_names`
(photo_merger.py:126-140): metadata first; if falsy, the filename pattern;
if still falsy, the empty string. -/
def fallbackTimestamp (meta : MetadataResult) (name : String) : String :=
  let step1 := extract_metadata meta
  let step2 := if pyTruthy step1 then step1 else extract_datetime_from_file_name name
  if pyTruthy step2 then step2.getD "" else ""

/-- The subdirectory tag of `PhotoMerger._generate_new_file_names`
(photo_merger.py:143-146): each segment of the parent path relative to the
root is lowercased and has its spaces replaced by underscores, and the
segments are joined with underscores. -/
def formatSubdirs (parts : List String) : String :=
  String.intercalate "_" (parts.map (fun part => replaceChar (strLower part) ' ' '_'))

/-- The name composition of `PhotoMerger._generate_new_file_names`
(photo_merger.py:147-153): timestamp, then the subdirectory tag when that
tag is truthy (non-empty), then the lowercased extension. -/
def synthesizeName (datetimeStr : String) (parts : List String) (fileName : String) :
    String :=
  let subdirsFormatted := formatSubdirs parts
  let ext := strLower (pySuffix fileName)
  if subdirsFormatted ≠ "" then datetimeStr ++ "_" ++ subdirsFormatted ++ ext
  else datetimeStr ++ ext

theorem matchAt_length (ps : List (Char → Bool)) (cs : List Char) (m : List Char)
    (h : matchAt ps cs = some m) : m.length = ps.length := by
  induction ps generalizing cs m with
  | nil =>
    simp [matchAt] at h
    simp [← h]
  | cons p ps ih =>
    cases cs with
    | nil => simp [matchAt] at h
    | cons c cs' =>
      by_cases hp : p c
      · simp [matchAt, hp, Option.map_eq_some'] at h
        obtain ⟨m', hm', rfl⟩ := h
        simp [ih _ _ hm']
      · simp [matchAt, hp] at h

theorem searchDT_length (cs : List Char) (m : List Char) (h : searchDT cs = some m) :
    m.length = 19 := by
  induction cs with
  | nil => simp [searchDT] at h
  | cons c cs ih =>
    rw [searchDT] at h
    cases hm : matchAt dtPattern (c :: cs) with
    | none =>
      rw [hm] at h
      exact ih h
    | some m' =>
      rw [hm] at h
      have : m' = m := Option.some.inj h
      subst this
      have := matchAt_length dtPattern (c :: cs) m' hm
      simpa [dtPattern] using this

theorem extract_datetime_ne_empty (name : String) (s : String)
    (h : extract_datetime_from_file_name name = some s) : s ≠ "" := by
  unfold extract_datetime_from_file_name at h
  cases hm : searchDT name.data with
  | none => rw [hm] at h; exact absurd h (by simp)
  | some m =>
    rw [hm] at h
    have hs : replaceChar (String.mk m) '-' '_' = s := Option.some.inj h
    have hlen : m.length = 19 := searchDT_length _ _ hm
    intro he
    rw [he] at hs
    have h1 := congrArg String.data hs
    simp [replaceChar] at h1
    rw [h1] at hlen
    simp at hlen

/-- C4: timestamp extraction precedence — a truthy metadata timestamp is used
as-is (the filename plays no role in the result), within the metadata the
DateTimeOriginal tag is preferred over DateTime, the filename pattern is the
result only when the metadata step is falsy, and when both fail the timestamp
is the empty string. -/
theorem C4_timestamp_precedence :
    (∀ meta name, pyTruthy (extract_metadata meta) = true →
      fallbackTimestamp meta name = (extract_metadata meta).getD "") ∧
    (∀ tags v, getK tags "DateTimeOriginal" = some v → v ≠ "" →
      extract_metadata (.ok tags) = some (replaceChar (replaceChar v ':' '_') ' ' '_')) ∧
    (∀ meta name s, pyTruthy (extract_metadata meta) = false →
      extract_datetime_from_file_name name = some s →
      fallbackTimestamp meta name = s) ∧
    (∀ meta name, pyTruthy (extract_metadata meta) = false →
      extract_datetime_from_file_name name = none →
      fallbackTimestamp meta name = "") := by
  refine ⟨?_, ?_, ?_, ?_⟩
  · intro meta name h
    simp [fallbackTimestamp, h]
  · intro tags v hv hne
    cases tags with
    | nil => simp [getK] at hv
    | cons hd rest =>
      simp [extract_metadata, pyOr, pyTruthy, hv, hne]
  · intro meta name s hf hs
    have hne : s ≠ "" := extract_datetime_ne_empty name s hs
    simp only [fallbackTimestamp, hf, hs]
    simp [pyTruthy, hne]
  · intro meta name hf hn
    simp only [fallbackTimestamp, hf, hn]
    simp [pyTruthy]

/-- Witness for C4: the metadata value wins over a filename match, the
filename pattern is used when the metadata step fails, and a file with
neither gets the empty timestamp. -/
theorem C4_timestamp_precedence_witness :
    fallbackTimestamp
        (.ok [("DateTime", "2011:01:01 01:01:01"),
              ("DateTimeOriginal", "2024:01:02 03:04:05")])
        "IMG_2020-05-05_05-05-05.jpg" = "2024_01_02_03_04_05" ∧
    fallbackTimestamp .err "IMG_2020-05-05_05-05-05.jpg" = "2020_05_05_05_05_05" ∧
    fallbackTimestamp .err "photo.jpg" = "" := by
  refine ⟨?_, ?_, ?_⟩
  · have h := C4_timestamp_precedence.1
      (.ok [("DateTime", "2011:01:01 01:01:01"),
            ("DateTimeOriginal", "2024:01:02 03:04:05")])
      "IMG_2020-05-05_05-05-05.jpg" (by decide)
    rw [h]
    decide
  · exact C4_timestamp_precedence.2.2.1 .err "IMG_2020-05-05_05-05-05.jpg"
      "2020_05_05_05_05_05" (by decide) (by decide)
  · exact C4_timestamp_precedence.2.2.2 .err "photo.jpg" (by decide) (by decide)

/-- C5: the proposed filename is the timestamp, an underscore and the
subdirectory tag when that tag is non-empty, and the lowercased extension;
the tag joins the lowercased, space-replaced segments of the parent path
relative to the root with underscores.  A file at root/VacationA/Beach/img1.jpg
with timestamp 2020_01_01_00_00_00 yields 2020_01_01_00_00_00_vacationa_beach.jpg,
and an empty timestamp with an empty tag yields just the lowercased extension. -/
theorem C5_name_synthesis :
    (∀ dt parts name,
      synthesizeName dt parts name =
        if formatSubdirs parts = "" then dt ++ strLower (pySuffix name)
        else dt ++ "_" ++ formatSubdirs parts ++ strLower (pySuffix name)) ∧
    synthesizeName "2020_01_01_00_00_00" ["VacationA", "Beach"] "img1.jpg" =
      "2020_01_01_00_00_00_vacationa_beach.jpg" ∧
    synthesizeName "" [] "IMG0001.JPG" = ".jpg" := by
  refine ⟨?_, by decide, by decide⟩
  intro dt parts name
  by_cases h : formatSubdirs parts = "" <;> simp [synthesizeName, h]

/-- The source tree beneath the root directory: named regular files (each
carrying what reading its metadata would produce) and named directories with
their children.  The root itself is a `List FSTree` of top-level entries. -/
inductive FSTree where
  | file (name : String) (meta : MetadataResult)
  | dir (name : String) (children : List FSTree)

/-- The last path component of an entry (`Path.name`). -/
def fsName : FSTree → String
  | .file n _ => n
  | .dir n _ => n

/-- What `PhotoMerger._extract_metadata` would be handed for this entry:
opening a directory as an image raises, which the extractor catches. -/
def fsMeta : FSTree → MetadataResult
  | .file _ m => m
  | .dir _ _ => .err

/-- `Path.is_file` for an entry of the modelled tree. -/
def isFile : FSTree → Bool
  | .file _ _ => true
  | .dir _ _ => false

/-- `path.suffix.lower()` of an entry's name. -/
def suffLower (t : FSTree) : String :=
  strLower (pySuffix (fsName t))

/-- `root_directory.rglob("*")`: every entry (file or directory) beneath the
given entries at any depth, paired with the path of its parent directory
relative to the root (`pre`).  Python's traversal order is
filesystem-dependent; this model fixes a preorder. -/
def entriesList (pre : List String) : List FSTree → List (List String × FSTree)
  | [] => []
  | FSTree.file n m :: rest => (pre, FSTree.file n m) :: entriesList pre rest
  | FSTree.dir n cs :: rest =>
      (pre, FSTree.dir n cs) :: (entriesList (pre ++ [n]) cs ++ entriesList pre rest)

/-- `PhotoMerger._obtain_image_file_paths` (photo_merger.py:42-56): the
entries of `rglob("*")` whose lowercased suffix is in the allowed extension
list.  The source has no `is_file` check here. -/
def obtain_image_file_paths (allowed : List String) (root : List FSTree) :
    List (List String × FSTree) :=
  (entriesList [] root).filter (fun e => decide (suffLower e.2 ∈ allowed))

/-- `PhotoMerger._generate_new_file_names` (photo_merger.py:113-157): one
mapping entry per discovered path, keyed by the path, whose value combines
the fallback timestamp, the relative parent path and the lowercased
extension. -/
def generate_new_file_names (entries : List (List String × FSTree)) :
    List ((List String × FSTree) × String) :=
  entries.map (fun e =>
    (e, synthesizeName (fallbackTimestamp (fsMeta e.2) (fsName e.2)) e.1 (fsName e.2)))

/-- C7: a metadata read failure is caught inside the extractor and becomes
the absence value rather than a propagating exception (the extractor is a
total function sending the raised case to none), the rename-mapping builder
still produces an entry for every input file, and when the filename pattern
also yields nothing the caller substitutes the empty-string timestamp. -/
theorem C7_metadata_errors_are_caught :
    extract_metadata .err = none ∧
    (∀ entries, (generate_new_file_names entries).length = entries.length) ∧
    (∀ name, extract_datetime_from_file_name name = none →
      fallbackTimestamp .err name = "") := by
  refine ⟨rfl, ?_, ?_⟩
  · intro entries
    simp [generate_new_file_names]
  · intro name hn
    simp only [fallbackTimestamp, hn]
    simp [extract_metadata, pyTruthy]

/-- Witness for C7: a corrupt file whose name has no datetime pattern gets
the empty-string timestamp, and a one-file mapping still has one entry. -/
theorem C7_metadata_errors_are_caught_witness :
    fallbackTimestamp .err "photo.jpg" = "" ∧
    (generate_new_file_names [([], FSTree.file "photo.jpg" .err)]).length = 1 := by
  constructor
  · exact C7_metadata_errors_are_caught.2.2 "photo.jpg" (by decide)
  · exact C7_metadata_errors_are_caught.2.1 [([], FSTree.file "photo.jpg" .err)]

/-- The count of allowed-suffix entries among the immediate children of a
directory (`sum(1 for path in subdir.iterdir() if path.suffix.lower() in
self.allowed_image_extensions)`, photo_merger.py:219-223 — note: no
`is_file` check). -/
def childCount (allowed : List String) (cs : List FSTree) : Nat :=
  (cs.filter (fun c => decide (suffLower c ∈ allowed))).length

/-- The verifier's per-subdirectory accumulation (photo_merger.py:216-226):
for every directory of `rglob("*")`, its child count is added when positive
(the increment sits inside the `if count > 0` that also gates the log line). -/
def subdirTotals (allowed : List String) : List FSTree → Nat
  | [] => 0
  | FSTree.file _ _ :: rest => subdirTotals allowed rest
  | FSTree.dir _ cs :: rest =>
      (if 0 < childCount allowed cs then childCount allowed cs else 0) +
        subdirTotals allowed cs + subdirTotals allowed rest

/-- The same sum without the (mathematically inert) positivity gate. -/
def subdirTotalsPlain (allowed : List String) : List FSTree → Nat
  | [] => 0
  | FSTree.file _ _ :: rest => subdirTotalsPlain allowed rest
  | FSTree.dir _ cs :: rest =>
      childCount allowed cs + subdirTotalsPlain allowed cs + subdirTotalsPlain allowed rest

/-- Allowed-suffix regular files directly in the root
(photo_merger.py:229-233, with `is_file`). -/
def rootFileCount (allowed : List String) (root : List FSTree) : Nat :=
  (root.filter (fun c => isFile c && decide (suffLower c ∈ allowed))).length

/-- `total_original` as computed by `PhotoMerger._verify_merge`
(photo_merger.py:216-236): the gated per-subdirectory sum plus the root file
count when positive. -/
def total_original (allowed : List String) (root : List FSTree) : Nat :=
  subdirTotals allowed root +
    (if 0 < rootFileCount allowed root then rootFileCount allowed root else 0)

/-- `total_merged` (photo_merger.py:241-245): allowed-suffix regular files
directly in the output directory. -/
def total_merged (allowed : List String) (out : List FSTree) : Nat :=
  (out.filter (fun c => isFile c && decide (suffLower c ∈ allowed))).length

/-- `PhotoMerger._verify_merge` (photo_merger.py:208-253): the
`assert total_original == total_merged` raises (fatal) exactly when the two
totals differ. -/
def verify_merge (allowed : List String) (root out : List FSTree) :
    Except String Unit :=
  if total_original allowed root = total_merged allowed out then Except.ok ()
  else Except.error "Mismatch between original and merged image counts"

/-- Allowed-suffix directories directly in the root: the quantity on which
the discovery scan and the verifier scan disagree. -/
def rootDirAllowedCount (allowed : List String) (root : List FSTree) : Nat :=
  (root.filter (fun c => !isFile c && decide (suffLower c ∈ allowed))).length

theorem fsList_induction (motive : List FSTree → Prop)
    (hnil : motive [])
    (hfile : ∀ n m rest, motive rest → motive (FSTree.file n m :: rest))
    (hdir : ∀ n cs rest, motive cs → motive rest → motive (FSTree.dir n cs :: rest)) :
    ∀ l, motive l
  | [] => hnil
  | FSTree.file n m :: rest =>
    hfile n m rest (fsList_induction motive hnil hfile hdir rest)
  | FSTree.dir n cs :: rest =>
    hdir n cs rest (fsList_induction motive hnil hfile hdir cs)
      (fsList_induction motive hnil hfile hdir rest)

theorem positivity_gate (n : Nat) : (if 0 < n then n else 0) = n := by
  by_cases h : 0 < n
  · simp [h]
  · simp [h]
    omega

theorem subdirTotals_eq_plain (allowed : List String) (l : List FSTree) :
    subdirTotals allowed l = subdirTotalsPlain allowed l := by
  induction l using fsList_induction with
  | hnil => simp [subdirTotals, subdirTotalsPlain]
  | hfile n m rest ih => simp [subdirTotals, subdirTotalsPlain, ih]
  | hdir n cs rest ih1 ih2 =>
    simp [subdirTotals, subdirTotalsPlain, ih1, ih2, positivity_gate]

theorem filterLen_entriesList (A : List String) (l : List FSTree) :
    ∀ pre, ((entriesList pre l).filter (fun e => decide (suffLower e.2 ∈ A))).length =
      childCount A l + subdirTotalsPlain A l := by
  induction l using fsList_induction with
  | hnil => intro pre; simp [entriesList, childCount, subdirTotalsPlain]
  | hfile n m rest ih =>
    intro pre
    have ihp := ih pre
    simp only [entriesList]
    by_cases h : suffLower (FSTree.file n m) ∈ A <;>
      simp [List.filter_cons, childCount, subdirTotalsPlain, h] at * <;>
      omega
  | hdir n cs rest ih1 ih2 =>
    intro pre
    have h1 := ih1 (pre ++ [n])
    have h2 := ih2 pre
    simp only [entriesList]
    by_cases h : suffLower (FSTree.dir n cs) ∈ A <;>
      simp [List.filter_cons, List.filter_append, childCount, subdirTotalsPlain, h] at * <;>
      omega

theorem childCount_split (A : List String) (l : List FSTree) :
    childCount A l = rootFileCount A l + rootDirAllowedCount A l := by
  induction l with
  | nil => rfl
  | cons t rest ih =>
    cases t with
    | file n m =>
      by_cases h : suffLower (FSTree.file n m) ∈ A <;>
        simp [childCount, rootFileCount, rootDirAllowedCount, List.filter_cons,
          isFile, h] at * <;>
        omega
    | dir n cs =>
      by_cases h : suffLower (FSTree.dir n cs) ∈ A <;>
        simp [childCount, rootFileCount, rootDirAllowedCount, List.filter_cons,
          isFile, h] at * <;>
        omega

/-- C6 counterexample: discovery is claimed to return exactly the files with
an allowed lowercased suffix, but on a root containing a directory named
vacation.jpg the discovered list contains that directory (the source filters
`rglob("*")` by suffix only, with no `is_file` check). -/
theorem C6_discovery_returns_a_directory :
    ¬ (∀ e ∈ obtain_image_file_paths [".jpg"] [FSTree.dir "vacation.jpg" []],
        isFile e.2 = true) := by
  intro h
  have hmem : (([] : List String), FSTree.dir "vacation.jpg" []) ∈
      obtain_image_file_paths [".jpg"] [FSTree.dir "vacation.jpg" []] := by
    refine List.mem_filter.mpr ⟨?_, ?_⟩
    · simp [entriesList]
    · decide
  exact absurd (h _ hmem) (by simp [isFile])

/-- C6 (amended): discovery returns exactly the entries — files and
directories alike — beneath the root whose lowercased suffix is in the
allowed extension list; consequently an entry whose lowercased suffix is
not allowed (such as notes.txt when .txt is absent) is never discovered. -/
theorem C6_amended_extension_filtering :
    (∀ (A : List String) (root : List FSTree) (pre : List String) (t : FSTree),
      ((pre, t) ∈ obtain_image_file_paths A root ↔
        ((pre, t) ∈ entriesList [] root ∧ suffLower t ∈ A))) ∧
    (∀ (A : List String) (root : List FSTree) (pre : List String) (t : FSTree),
      suffLower t ∉ A → (pre, t) ∉ obtain_image_file_paths A root) := by
  have h1 : ∀ (A : List String) (root : List FSTree) (pre : List String) (t : FSTree),
      ((pre, t) ∈ obtain_image_file_paths A root ↔
        ((pre, t) ∈ entriesList [] root ∧ suffLower t ∈ A)) := by
    intro A root pre t
    simp [obtain_image_file_paths, List.mem_filter]
  refine ⟨h1, ?_⟩
  intro A root pre t hno hmem
  exact hno ((h1 A root pre t).1 hmem).2

/-- Witness for C6 (amended): notes.txt is not discovered when .txt is not
among the allowed extensions. -/
theorem C6_amended_extension_filtering_witness :
    (([] : List String), FSTree.file "notes.txt" MetadataResult.err) ∉
      obtain_image_file_paths [".jpg"] [FSTree.file "notes.txt" MetadataResult.err] :=
  C6_amended_extension_filtering.2 [".jpg"]
    [FSTree.file "notes.txt" MetadataResult.err] []
    (FSTree.file "notes.txt" MetadataResult.err) (by decide)

/-- C8: the merge verifier returns normally exactly when its recomputed
source-tree total (per-subdirectory allowed-suffix child counts plus
allowed-suffix files directly in the root) equals the count of
allowed-suffix files directly in the output directory, and raises the fatal
integrity assertion exactly when the two totals differ. -/
theorem C8_verifier_accepts_iff_counts_equal (A : List String) (root out : List FSTree) :
    verify_merge A root out = Except.ok () ↔
      subdirTotalsPlain A root + rootFileCount A root = total_merged A out := by
  have htot : total_original A root = subdirTotalsPlain A root + rootFileCount A root := by
    rw [total_original, subdirTotals_eq_plain, positivity_gate]
  simp only [verify_merge, htot]
  by_cases h : subdirTotalsPlain A root + rootFileCount A root = total_merged A out <;>
    simp [h]

/-- Witness for C8: one source file, one output file, equal counts — the
verifier accepts. -/
theorem C8_verifier_accepts_iff_counts_equal_witness :
    verify_merge [".jpg"] [FSTree.file "a.jpg" MetadataResult.err]
      [FSTree.file "b.jpg" MetadataResult.err] = Except.ok () := by
  apply (C8_verifier_accepts_iff_counts_equal [".jpg"]
    [FSTree.file "a.jpg" MetadataResult.err]
    [FSTree.file "b.jpg" MetadataResult.err]).mpr
  have h1 : subdirTotalsPlain [".jpg"] [FSTree.file "a.jpg" MetadataResult.err] = 0 := by
    simp [subdirTotalsPlain]
  rw [h1]
  decide

/-- C9 counterexample: on a root whose only entry is a directory named
vacation.jpg, discovery finds one candidate (the directory itself, matched
by suffix) while the verifier recomputes a source total of zero (the
directory has no children, and the root count requires `is_file`), so the
two scans do not compute the same quantity. -/
theorem C9_scan_mismatch_counterexample :
    (obtain_image_file_paths [".jpg"] [FSTree.dir "vacation.jpg" []]).length ≠
      total_original [".jpg"] [FSTree.dir "vacation.jpg" []] := by
  have h1 : (obtain_image_file_paths [".jpg"] [FSTree.dir "vacation.jpg" []]).length
      = 1 := by
    simp only [obtain_image_file_paths, entriesList]
    decide
  have h2 : total_original [".jpg"] [FSTree.dir "vacation.jpg" []] = 0 := by
    have hs : subdirTotals [".jpg"] [FSTree.dir "vacation.jpg" []] = 0 := by
      simp [subdirTotals, childCount]
    simp only [total_original, hs]
    decide
  omega

/-- C9 (amended): the discovery count equals the verifier's recomputed
source total plus the number of directories directly in the root whose
lowercased suffix is allowed; the two scans agree exactly when the root
contains no such directory. -/
theorem C9_amended_discovery_equals_verifier_plus_root_dirs (A : List String)
    (root : List FSTree) :
    (obtain_image_file_paths A root).length =
      total_original A root + rootDirAllowedCount A root ∧
    ((obtain_image_file_paths A root).length = total_original A root ↔
      rootDirAllowedCount A root = 0) := by
  have hfl := filterLen_entriesList A root []
  have hsplit := childCount_split A root
  have htot : total_original A root = subdirTotalsPlain A root + rootFileCount A root := by
    rw [total_original, subdirTotals_eq_plain, positivity_gate]
  have hmain : (obtain_image_file_paths A root).length =
      total_original A root + rootDirAllowedCount A root := by
    simp only [obtain_image_file_paths]
    rw [hfl, hsplit, htot]
    omega
  exact ⟨hmain, by omega⟩

/-- Witness for C9 (amended): a tree with one subdirectory holding one image
and no allowed-suffix directory in the root, on which both scans yield 1. -/
theorem C9_amended_discovery_equals_verifier_plus_root_dirs_witness :
    (obtain_image_file_paths [".jpg"]
        [FSTree.dir "sub" [FSTree.file "a.jpg" MetadataResult.err]]).length =
      total_original [".jpg"] [FSTree.dir "sub" [FSTree.file "a.jpg" MetadataResult.err]] := by
  apply ((C9_amended_discovery_equals_verifier_plus_root_dirs [".jpg"]
    [FSTree.dir "sub" [FSTree.file "a.jpg" MetadataResult.err]]).2).mpr
  decide

/-- The pipeline steps a run of the orchestrator could perform, named after
the components of the design. -/
inductive MergeStep where
  | discoverFiles
  | reportSizes
  | buildMapping
  | resolveCollisions
  | copyFiles
  | verifyMerge
deriving DecidableEq

/-- The sequence of steps executed by `PhotoMerger.merge`
(photo_merger.py:255-269), one per statement of the straight-line method
body, in source order: `_obtain_image_file_paths`,
`_generate_new_file_names`, `_resolve_duplicate_output_file_paths`,
`_copy_and_rename_images`, `_verify_merge`.  Neither the body nor any of
these callees invokes the size-reporting helpers of utils.py
(`obtain_file_sizes`, `aggregate_sizes_by_subdir_and_extension`,
`print_aggregated_sizes_table` are never called from photo_merger.py or
main.py). -/
def mergeTrace : List MergeStep :=
  [MergeStep.discoverFiles, MergeStep.buildMapping, MergeStep.resolveCollisions,
   MergeStep.copyFiles, MergeStep.verifyMerge]

/-- C3 counterexample: the claim requires the aggregate-size-statistics
report to be performed in every run, but the orchestrator's step sequence
does not contain the size-reporting step at all. -/
theorem C3_no_size_report_step :
    MergeStep.reportSizes ∉ mergeTrace := by
  decide

/-- C3 (amended): the orchestrator executes exactly five steps in this fixed
order — discover candidate files, build the rename mapping, resolve
collisions, copy, verify — and the size-statistics report is not among
them. -/
theorem C3_amended_pipeline_order :
    mergeTrace =
      [MergeStep.discoverFiles, MergeStep.buildMapping, MergeStep.resolveCollisions,
       MergeStep.copyFiles, MergeStep.verifyMerge] ∧
    MergeStep.reportSizes ∉ mergeTrace ∧
    MergeStep.discoverFiles ∈ mergeTrace ∧ MergeStep.verifyMerge ∈ mergeTrace := by
  refine ⟨rfl, by decide, by decide, by decide⟩

/-- A key of the aggregated-data dictionary: the relative subdirectory paths
produced by the aggregation step, and the plain string key TOTAL that the
printer adds (a Python dict can mix both key types). -/
inductive AggKey where
  | path (parts : List String)
  | str (s : String)
deriving DecidableEq

/-- A per-(subdirectory, extension) record of `aggregate_sizes_by_subdir_and
_extension` (utils.py:90-100) under the default column names: the running
size total in megabytes (Python floats modelled as rationals) and the
running file count. -/
structure AggRec where
  total_size_mb : ℚ
  count : Nat
deriving DecidableEq

/-- One step of the aggregation fold (utils.py:96-100): defaultdict
get-or-insert on the subdirectory key and the extension key, then add the
file's size and bump the count.  A file path is modelled as (parent parts
relative to the root, file name). -/
def aggStep (acc : List (AggKey × List (String × AggRec)))
    (e : (List String × String) × ℚ) : List (AggKey × List (String × AggRec)) :=
  let subdir := AggKey.path e.1.1
  let ext := strLower (pySuffix e.1.2)
  let extMap := (getK acc subdir).getD []
  let rec0 := (getK extMap ext).getD ⟨0, 0⟩
  setK acc subdir (setK extMap ext ⟨rec0.total_size_mb + e.2, rec0.count + 1⟩)

/-- `aggregate_sizes_by_subdir_and_extension` (utils.py:83-104): fold the
file-size mapping in insertion order, starting from an empty dictionary. -/
def aggregate_sizes_by_subdir_and_extension
    (file_size_mapping : List ((List String × String) × ℚ)) :
    List (AggKey × List (String × AggRec)) :=
  file_size_mapping.foldl aggStep []

/-- The totals loop of `print_aggregated_sizes_table` (utils.py:117-129):
sum every record's count and size over the whole dictionary in iteration
order, before anything is added to it. -/
def tableTotals (aggregated_data : List (AggKey × List (String × AggRec))) :
    Nat × ℚ :=
  aggregated_data.foldl
    (fun acc kv => kv.2.foldl
      (fun acc2 er => (acc2.1 + er.2.count, acc2.2 + er.2.total_size_mb)) acc)
    (0, 0)

/-- The mutation `print_aggregated_sizes_table` performs on its argument
(utils.py:136-138): after the totals loop, the grand totals are stored under
the string key TOTAL with pseudo-extension "-".  State-passing rendition of
the in-place dict update; the printing itself is console I/O only. -/
def print_aggregated_sizes_table
    (aggregated_data : List (AggKey × List (String × AggRec))) :
    List (AggKey × List (String × AggRec)) :=
  setK aggregated_data (AggKey.str "TOTAL")
    [("-", ⟨(tableTotals aggregated_data).2, (tableTotals aggregated_data).1⟩)]

theorem getK_str_aggStep (acc : List (AggKey × List (String × AggRec)))
    (e : (List String × String) × ℚ) (s : String) :
    getK (aggStep acc e) (AggKey.str s) = getK acc (AggKey.str s) := by
  simp only [aggStep]
  exact getK_setK_ne _ _ _ _ (by simp)

theorem getK_str_aggregate (m : List ((List String × String) × ℚ)) (s : String) :
    getK (aggregate_sizes_by_subdir_and_extension m) (AggKey.str s) = none := by
  suffices h : ∀ acc, getK acc (AggKey.str s) = none →
      getK (List.foldl aggStep acc m) (AggKey.str s) = none by
    exact h [] rfl
  induction m with
  | nil => intro acc hacc; simpa using hacc
  | cons e rest ih =>
    intro acc hacc
    simp only [List.foldl_cons]
    exact ih _ (by rw [getK_str_aggStep]; exact hacc)

theorem setK_eq_append_of_getK_none {κ ν : Type} [DecidableEq κ]
    (d : List (κ × ν)) (k : κ) (v : ν)
    (h : getK d k = none) : setK d k v = d ++ [(k, v)] := by
  induction d with
  | nil => simp [setK]
  | cons hd rest ih =>
    obtain ⟨k', v'⟩ := hd
    by_cases hk : k' = k
    · simp [getK, hk] at h
    · simp only [getK, if_neg hk] at h
      simp [setK, hk, ih h]

/-- C10: printing the aggregated statistics table mutates its input — the
returned dictionary holds a new TOTAL entry with the grand totals computed
from the input, every other key is unchanged, the result can never equal an
output of the aggregation step (whose keys are all relative paths), and a
second call recomputes totals over a dictionary that already contains the
TOTAL row, doubling them. -/
theorem C10_print_table_mutates_input :
    (∀ d, getK (print_aggregated_sizes_table d) (AggKey.str "TOTAL") =
      some [("-", ⟨(tableTotals d).2, (tableTotals d).1⟩)]) ∧
    (∀ d k, k ≠ AggKey.str "TOTAL" →
      getK (print_aggregated_sizes_table d) k = getK d k) ∧
    (∀ d m, print_aggregated_sizes_table d ≠
      aggregate_sizes_by_subdir_and_extension m) ∧
    (∀ d, getK d (AggKey.str "TOTAL") = none →
      tableTotals (print_aggregated_sizes_table d) =
        (2 * (tableTotals d).1, 2 * (tableTotals d).2)) ∧
    (∀ d, getK d (AggKey.str "TOTAL") = none →
      getK (print_aggregated_sizes_table (print_aggregated_sizes_table d))
          (AggKey.str "TOTAL") =
        some [("-", ⟨2 * (tableTotals d).2, 2 * (tableTotals d).1⟩)]) := by
  have h1 : ∀ d, getK (print_aggregated_sizes_table d) (AggKey.str "TOTAL") =
      some [("-", ⟨(tableTotals d).2, (tableTotals d).1⟩)] := by
    intro d
    simp only [print_aggregated_sizes_table]
    exact getK_setK_self _ _ _
  have h4 : ∀ d, getK d (AggKey.str "TOTAL") = none →
      tableTotals (print_aggregated_sizes_table d) =
        (2 * (tableTotals d).1, 2 * (tableTotals d).2) := by
    intro d hd
    have happ : print_aggregated_sizes_table d =
        d ++ [(AggKey.str "TOTAL",
          [("-", ⟨(tableTotals d).2, (tableTotals d).1⟩)])] := by
      simp only [print_aggregated_sizes_table]
      exact setK_eq_append_of_getK_none d _ _ hd
    rw [happ]
    simp only [tableTotals, List.foldl_append, List.foldl_cons, List.foldl_nil]
    refine Prod.ext ?_ ?_ <;> simp <;> ring
  refine ⟨h1, ?_, ?_, h4, ?_⟩
  · intro d k hk
    simp only [print_aggregated_sizes_table]
    exact getK_setK_ne _ _ _ _ hk
  · intro d m heq
    have hsome := h1 d
    rw [heq, getK_str_aggregate] at hsome
    exact Option.noConfusion hsome
  · intro d hd
    rw [h1 (print_aggregated_sizes_table d), h4 d hd]

/-- Witness for C10: a one-entry dictionary (subdirectory a, extension .jpg,
two files of five megabytes total) gains a TOTAL row, keeps its entry, and a
second call doubles the totals. -/
theorem C10_print_table_mutates_input_witness :
    getK (print_aggregated_sizes_table
        [(AggKey.path ["a"], [(".jpg", ⟨(5 : ℚ), 2⟩)])]) (AggKey.str "TOTAL") =
      some [("-", ⟨(5 : ℚ), 2⟩)] ∧
    getK (print_aggregated_sizes_table
        [(AggKey.path ["a"], [(".jpg", ⟨(5 : ℚ), 2⟩)])]) (AggKey.path ["a"]) =
      some [(".jpg", ⟨(5 : ℚ), 2⟩)] ∧
    getK (print_aggregated_sizes_table (print_aggregated_sizes_table
        [(AggKey.path ["a"], [(".jpg", ⟨(5 : ℚ), 2⟩)])])) (AggKey.str "TOTAL") =
      some [("-", ⟨(10 : ℚ), 4⟩)] := by
  refine ⟨?_, ?_, ?_⟩
  · have h := C10_print_table_mutates_input.1
      [(AggKey.path ["a"], [(".jpg", ⟨(5 : ℚ), 2⟩)])]
    rw [h]
    norm_num [tableTotals]
  · have h := C10_print_table_mutates_input.2.1
      [(AggKey.path ["a"], [(".jpg", ⟨(5 : ℚ), 2⟩)])] (AggKey.path ["a"]) (by decide)
    rw [h]
    rfl
  · have h := C10_print_table_mutates_input.2.2.2.2
      [(AggKey.path ["a"], [(".jpg", ⟨(5 : ℚ), 2⟩)])] (by rfl)
    rw [h]
    norm_num [tableTotals]

